import Mathlib

/-!
Verification of `wren-ai-service/src/utils.py` (WrenAI).

Shallow embedding: Python strings become `String`, Python `None`-or-string
values become `Option String`, Python dicts become insertion-ordered
association lists, fallible code returns `Except PyErr`.
-/

namespace WrenAI

/-- A Python scalar value as it appears in the metadata dicts of `utils.py`:
either `None` (`Option.none`) or a string. -/
abbrev Value := Option String

/-- A Python dict with string keys, modelled as an insertion-ordered
association list with unique keys maintained by `dictSet`. -/
abbrev Dict := List (String × Value)

/-- Python exceptions that the embedded code can raise. -/
inductive PyErr where
  | keyError
  | indexError
  | assertionError
  | valueError (msg : String)
deriving DecidableEq

/-- Dict membership lookup: `some v` when the key is present with value `v`,
`none` when the key is absent (Python `k in d` / `d[k]`). -/
def dictGet (d : Dict) (k : String) : Option Value :=
  (d.find? (fun p => p.1 == k)).map (fun p => p.2)

/-- Python `d.get(k)`: the stored value, or Python `None` when absent. -/
def pyGet (d : Dict) (k : String) : Value :=
  (dictGet d k).getD Option.none

/-- Python `d[k] = v`: replace the value in place when the key exists,
otherwise append the new entry (insertion order preserved). -/
def dictSet : Dict → String → Value → Dict
  | [], k, v => [(k, v)]
  | p :: rest, k, v => if p.1 == k then (k, v) :: rest else p :: dictSet rest k v

/-- Python `a.update(b)` / `\x7b**a, **b\x7d`: fold `b`'s entries into `a`,
later entries overriding earlier ones. -/
def dictUpdate (a b : Dict) : Dict :=
  b.foldl (fun acc p => dictSet acc p.1 p.2) a

/-! ### `setup_custom_logger` -/

/-- CPython's `logging._nameToLevel` table, which `setup_custom_logger`
consults: the eight recognised level names and their numeric levels. -/
def nameToLevel : List (String × Nat) :=
  [("CRITICAL", 50), ("FATAL", 50), ("ERROR", 40), ("WARN", 30),
   ("WARNING", 30), ("INFO", 20), ("DEBUG", 10), ("NOTSET", 0)]

/-- Python's `str.upper()` restricted to the character-wise case map, applied
over the string's character list. -/
def pyUpper (s : String) : String :=
  ⟨s.data.map Char.toUpper⟩

/-- `setup_custom_logger(name, level_str)` from `utils.py`, reduced to its
input-validation and level-selection behaviour: upper-case the level name,
reject it with `ValueError` when it is not in `logging._nameToLevel`, and
otherwise return the numeric level installed via `logger.setLevel`. -/
def setup_custom_logger (level_str : String) : Except PyErr Nat :=
  let u := pyUpper level_str
  match nameToLevel.find? (fun p => p.1 == u) with
  | some p => .ok p.2
  | Option.none => .error (.valueError ("Invalid logging level: " ++ u))

/-- The five level names that the specification's fixed set mentions. -/
def specFiveLevelNames : List String :=
  ["DEBUG", "INFO", "WARNING", "ERROR", "CRITICAL"]

/-! ### `remove_trailing_slash` -/

/-- Python `endpoint.rstrip("/")` on the character list: drop every trailing
`'/'`. -/
def rstripSlashList (cs : List Char) : List Char :=
  ((cs.reverse).dropWhile (fun c => c == '/')).reverse

/-- Python `endpoint.endswith("/")`. -/
def endswithSlash (s : String) : Bool :=
  match s.data.reverse with
  | [] => false
  | c :: _ => c == '/'

/-- `remove_trailing_slash` from `utils.py`:
`endpoint.rstrip("/") if endpoint.endswith("/") else endpoint`. -/
def remove_trailing_slash (endpoint : String) : String :=
  if endswithSlash endpoint then ⟨rstripSlashList endpoint.data⟩ else endpoint

/-! ### `timer` and `async_timer` -/

namespace timer

/-- The body of `timer`'s `wrapper_timer`: read `settings.enable_timer` at
call time; in both branches invoke `func(*args, **kwargs)` and return its
result (the enabled branch additionally measures and logs wall-clock time,
which has no observable effect on the returned value and is not modelled). -/
def wrapper_timer {α β : Type} (enable_timer : Bool) (func : α → β) (args : α) : β :=
  if enable_timer then
    let result := func args
    result
  else
    func args

end timer

/-- A Python callable as seen by `async_timer`: its behaviour on arguments,
together with the `asyncio.iscoroutinefunction` flag that the decorator's
`assert` inspects. -/
structure AsyncCallable (α β : Type) where
  run : α → β
  iscoroutinefunction : Bool

namespace async_timer

/-- `async_timer`'s inner `process`: `assert asyncio.iscoroutinefunction(func)`
then `await func(*args, **kwargs)`. A failed `assert` raises
`AssertionError`. -/
def process {α β : Type} (func : AsyncCallable α β) (args : α) : Except PyErr β :=
  if func.iscoroutinefunction then
    .ok (func.run args)
  else
    .error .assertionError

/-- The body of `async_timer`'s `wrapper_timer`: read `settings.enable_timer`
at call time; both branches evaluate `await process(func, *args, **kwargs)`
(the enabled branch additionally measures and logs wall-clock time). -/
def wrapper_timer {α β : Type} (enable_timer : Bool) (func : AsyncCallable α β)
    (args : α) : Except PyErr β :=
  if enable_timer then
    match process func args with
    | .ok result => .ok result
    | .error e => .error e
  else
    process func args

end async_timer

/-! ### `trace_metadata` -/

/-- The request object probed by `trace_metadata.extract`. Each field models
one of the four attributes: `Option.none` when `hasattr` is false, `some v`
when the attribute exists with Python value `v`. -/
structure Request where
  project_id : Option Value
  thread_id : Option Value
  mdl_hash : Option Value
  user_id : Option Value
deriving DecidableEq

/-- The `service_metadata` keyword argument of a traced call: a dict with a
`pipes_metadata` sub-dict and a `service_version` entry. -/
structure ServiceMeta where
  pipes_metadata : Dict
  service_version : Value
deriving DecidableEq

/-- The default `service_metadata` used when the keyword argument is absent:
`\x7b"pipes_metadata": \x7b\x7d, "service_version": ""\x7d`. -/
def defaultServiceMeta : ServiceMeta :=
  { pipes_metadata := [], service_version := some "" }

/-- The value returned by the wrapped callable, as far as `trace_metadata`
inspects it: either not a dict, or a dict whose optional `"metadata"` key
holds a sub-dict. -/
inductive Results where
  | nonDict
  | isDict (metadata? : Option Dict)
deriving DecidableEq

/-- The arguments `trace_metadata.wrapper` forwards to
`langfuse_context.update_current_trace`. -/
structure TraceUpdate where
  user_id : Value
  session_id : Value
  release : Value
  metadata : Dict
deriving DecidableEq

namespace trace_metadata

/-- The per-attribute dict built by `trace_metadata.extract` from the request
object: one entry per attribute that `hasattr` finds, inserted in source
order into an initially empty dict (so the keys are pairwise distinct and
`dictSet` degenerates to appending singleton entries). -/
def extractFrom (request : Request) : Dict :=
  (match request.project_id with
   | some v => [("project_id", v)]
   | Option.none => []) ++
  (match request.thread_id with
   | some v => [("thread_id", v)]
   | Option.none => []) ++
  (match request.mdl_hash with
   | some v => [("mdl_hash", v)]
   | Option.none => []) ++
  (match request.user_id with
   | some v => [("user_id", v)]
   | Option.none => [])

/-- `trace_metadata.extract(*args)`: take `args[1]` (raising `IndexError`
when the argument tuple is shorter) and probe it for the four attributes. -/
def extract (args : List Request) : Except PyErr Dict :=
  match args[1]? with
  | some request => .ok (extractFrom request)
  | Option.none => .error .indexError

/-- Modelled from the spec's words for comparison with `extract`: the same
attribute probing applied to the FIRST positional argument (`args[0]`), as
the specification describes the request's position. -/
def specExtractFromFirst (args : List Request) : Except PyErr Dict :=
  match args[0]? with
  | some request => .ok (extractFrom request)
  | Option.none => .error .indexError

/-- The body of `trace_metadata.wrapper` after `results = await func(...)`
has produced `results`: build `addition` from the result's `"metadata"` key,
extract the request attributes from `args[1]`, default the absent
`service_metadata` keyword, merge
`\x7b**pipes_metadata, **addition, "mdl_hash": ..., "project_id": ...\x7d`,
and return the `update_current_trace` payload together with the unchanged
`results`. -/
def wrapper (args : List Request) (service_metadata? : Option ServiceMeta)
    (results : Results) : Except PyErr (TraceUpdate × Results) :=
  match extract args with
  | .error e => .error e
  | .ok metadata =>
    let addition : Dict :=
      match results with
      | .nonDict => []
      | .isDict metadata? => metadata?.getD []
    let service_metadata := service_metadata?.getD defaultServiceMeta
    let langfuse_metadata : Dict :=
      dictSet (dictSet (dictUpdate service_metadata.pipes_metadata addition)
        "mdl_hash" (pyGet metadata "mdl_hash"))
        "project_id" (pyGet metadata "project_id")
    .ok ({ user_id := pyGet metadata "user_id",
           session_id := pyGet metadata "thread_id",
           release := service_metadata.service_version,
           metadata := langfuse_metadata }, results)

/-- The `pipes_metadata` mapping as the spec describes it: pulled from the
`service_metadata` keyword argument, an empty mapping when absent. -/
def pipesOf (service_metadata? : Option ServiceMeta) : Dict :=
  (service_metadata?.getD defaultServiceMeta).pipes_metadata

/-- The result's own `metadata` sub-mapping as the spec describes it: the
sub-mapping when the result is a mapping, empty otherwise. -/
def additionOf (results : Results) : Dict :=
  match results with
  | .nonDict => []
  | .isDict metadata? => metadata?.getD []

end trace_metadata

/-! ### `remove_sql_summary_duplicates` -/

/-- One record of the deduplicated list: a Python dict whose `"sql"` and
`"summary"` keys may each be absent (`Option.none`) or present with a value,
plus the record's remaining entries, carried along unchanged. -/
structure SqlRecord where
  sql? : Option Value
  summary? : Option Value
  rest : Dict
deriving DecidableEq

/-- The loop of `remove_sql_summary_duplicates`, with the `seen` set made
explicit: for each record read `d["sql"]` and `d["summary"]` (raising
`KeyError` when either is absent), skip the record when its identifier pair
was seen, otherwise keep it and remember the identifier. -/
def dedupFrom (seen : List (Value × Value)) :
    List SqlRecord → Except PyErr (List SqlRecord)
  | [] => .ok []
  | d :: rest =>
    match d.sql?, d.summary? with
    | some s, some m =>
      if (s, m) ∈ seen then
        dedupFrom seen rest
      else
        (dedupFrom ((s, m) :: seen) rest).map (fun l => d :: l)
    | _, _ => .error .keyError

/-- `remove_sql_summary_duplicates(dicts)` from `utils.py`: the loop started
with an empty `seen` set. -/
def remove_sql_summary_duplicates (dicts : List SqlRecord) :
    Except PyErr (List SqlRecord) :=
  dedupFrom [] dicts

/-- The `(sql, summary)` identifier of a record, defaulting the (assumed
present) fields; used only to state specifications. -/
def keyD (d : SqlRecord) : Value × Value :=
  (d.sql?.getD Option.none, d.summary?.getD Option.none)

/-- Modelled from the spec's words for comparison with
`remove_sql_summary_duplicates`: keep each list head and drop every later
record with the same `(sql, summary)` pair — "the subsequence retaining only
the first record for each distinct pair, preserving original relative order
of first occurrences". -/
def firstOcc : List SqlRecord → List SqlRecord
  | [] => []
  | d :: rest => d :: firstOcc (rest.filter (fun e => ¬(keyD e = keyD d)))
termination_by l => l.length
decreasing_by
  simp only [List.length_cons]
  exact Nat.lt_succ_of_le (List.length_filter_le _ _)

/-- The dedup loop's result described structurally with the `seen` set as a
parameter; used to bridge `dedupFrom` and `firstOcc`. -/
def firstOccSeen (seen : List (Value × Value)) : List SqlRecord → List SqlRecord
  | [] => []
  | d :: rest =>
    if keyD d ∈ seen then firstOccSeen seen rest
    else d :: firstOccSeen (keyD d :: seen) rest

/-! ### Helper lemmas about the dict model -/

theorem dictGet_dictSet_self (d : Dict) (k : String) (v : Value) :
    dictGet (dictSet d k v) k = some v := by
  induction d with
  | nil => simp [dictSet, dictGet]
  | cons p rest ih =>
    by_cases hp : p.1 = k
    · simp [dictSet, dictGet, hp]
    · have hp' : (p.1 == k) = false := by simp [hp]
      simpa [dictSet, dictGet, hp'] using ih

theorem dictGet_dictSet_ne (d : Dict) (k k' : String) (v : Value) (hne : k' ≠ k) :
    dictGet (dictSet d k v) k' = dictGet d k' := by
  induction d with
  | nil =>
    have : (k == k') = false := by simp [Ne.symm hne]
    simp [dictSet, dictGet, this]
  | cons p rest ih =>
    by_cases hp : p.1 = k
    · have hk : (k == k') = false := by simp [Ne.symm hne]
      have hp1 : (p.1 == k') = false := by simp [hp, Ne.symm hne]
      simp [dictSet, dictGet, hp, hk, hp1]
    · have hp' : (p.1 == k) = false := by simp [hp]
      by_cases hq : p.1 = k'
      · simp [dictSet, dictGet, hp', hq, hne]
      · have hq' : (p.1 == k') = false := by simp [hq]
        simpa [dictSet, dictGet, hp', hq'] using ih

theorem dictGet_dictUpdate (a b : Dict) (k : String)
    (hb : (b.map Prod.fst).Nodup) :
    dictGet (dictUpdate a b) k =
      match dictGet b k with
      | some v => some v
      | Option.none => dictGet a k := by
  induction b generalizing a with
  | nil => simp [dictUpdate, dictGet]
  | cons p rest ih =>
    obtain ⟨k₁, v₁⟩ := p
    simp only [List.map_cons, List.nodup_cons] at hb
    obtain ⟨hk₁, hrest⟩ := hb
    show dictGet (dictUpdate (dictSet a k₁ v₁) rest) k = _
    rw [ih (dictSet a k₁ v₁) hrest]
    by_cases hk : k = k₁
    · subst hk
      have hbnone : dictGet rest k = Option.none := by
        have hfind : rest.find? (fun p => p.1 == k) = Option.none := by
          rw [List.find?_eq_none]
          intro x hx hpx
          exact hk₁ ((List.mem_map).mpr ⟨x, hx, by simpa using hpx⟩)
        simp [dictGet, hfind]
      have hhead : dictGet ((k, v₁) :: rest) k = some v₁ := by
        simp [dictGet, List.find?]
      rw [hbnone, hhead, dictGet_dictSet_self]
    · have hhead : dictGet ((k₁, v₁) :: rest) k = dictGet rest k := by
        have : (k₁ == k) = false := by simp [Ne.symm hk]
        simp [dictGet, List.find?, this]
      rw [hhead, dictGet_dictSet_ne a k₁ k v₁ hk]

theorem dictGet_extractFrom_project_id (req : Request) :
    dictGet (trace_metadata.extractFrom req) "project_id" = req.project_id := by
  cases hp : req.project_id <;> cases ht : req.thread_id <;>
    cases hm : req.mdl_hash <;> cases hu : req.user_id <;>
    simp [trace_metadata.extractFrom, dictGet, hp, ht, hm, hu, List.find?, Option.or]

theorem dictGet_extractFrom_thread_id (req : Request) :
    dictGet (trace_metadata.extractFrom req) "thread_id" = req.thread_id := by
  cases hp : req.project_id <;> cases ht : req.thread_id <;>
    cases hm : req.mdl_hash <;> cases hu : req.user_id <;>
    simp [trace_metadata.extractFrom, dictGet, hp, ht, hm, hu, List.find?, Option.or]

theorem dictGet_extractFrom_mdl_hash (req : Request) :
    dictGet (trace_metadata.extractFrom req) "mdl_hash" = req.mdl_hash := by
  cases hp : req.project_id <;> cases ht : req.thread_id <;>
    cases hm : req.mdl_hash <;> cases hu : req.user_id <;>
    simp [trace_metadata.extractFrom, dictGet, hp, ht, hm, hu, List.find?, Option.or]

theorem dictGet_extractFrom_user_id (req : Request) :
    dictGet (trace_metadata.extractFrom req) "user_id" = req.user_id := by
  cases hp : req.project_id <;> cases ht : req.thread_id <;>
    cases hm : req.mdl_hash <;> cases hu : req.user_id <;>
    simp [trace_metadata.extractFrom, dictGet, hp, ht, hm, hu, List.find?, Option.or]

/-! ### Claim C5: timing decorators return the callable's result unchanged -/

/-- C5: for every wrapped callable and every argument, the synchronous timing
decorator returns exactly the value the wrapped callable returns, and the
asynchronous timing decorator returns exactly the value the wrapped coroutine
returns, both when the global `enable_timer` flag is true and when it is
false. -/
theorem timers_return_result_unchanged :
    (∀ (α β : Type) (enable_timer : Bool) (func : α → β) (args : α),
       timer.wrapper_timer enable_timer func args = func args) ∧
    (∀ (α β : Type) (enable_timer : Bool) (func : AsyncCallable α β) (args : α),
       func.iscoroutinefunction = true →
       async_timer.wrapper_timer enable_timer func args = .ok (func.run args)) := by
  constructor
  · intro α β enable_timer func args
    cases enable_timer <;> rfl
  · intro α β enable_timer func args h
    cases enable_timer <;> simp [async_timer.wrapper_timer, async_timer.process, h]

/-- C5 witness: both decorators evaluated on concrete callables and inputs,
in both timer configurations. -/
theorem timers_return_result_unchanged_witness :
    timer.wrapper_timer true (fun n : Nat => n + 1) 3 = 4 ∧
    timer.wrapper_timer false (fun n : Nat => n + 1) 3 = 4 ∧
    async_timer.wrapper_timer true ⟨fun n : Nat => n * 2, true⟩ 5 = .ok 10 ∧
    async_timer.wrapper_timer false ⟨fun n : Nat => n * 2, true⟩ 5 = .ok 10 :=
  ⟨timers_return_result_unchanged.1 Nat Nat true (fun n => n + 1) 3,
   timers_return_result_unchanged.1 Nat Nat false (fun n => n + 1) 3,
   timers_return_result_unchanged.2 Nat Nat true ⟨fun n => n * 2, true⟩ 5 rfl,
   timers_return_result_unchanged.2 Nat Nat false ⟨fun n => n * 2, true⟩ 5 rfl⟩

/-! ### Claim C6: `async_timer` asserts that the callable is a coroutine -/

/-- C6: for every non-coroutine callable wrapped by `async_timer`, invoking
the wrapper raises `AssertionError` in both timer configurations; for every
coroutine callable the assertion never fires. -/
theorem async_timer_assertion :
    ∀ (α β : Type) (func : AsyncCallable α β) (args : α),
      (func.iscoroutinefunction = false →
        async_timer.wrapper_timer true func args = .error .assertionError ∧
        async_timer.wrapper_timer false func args = .error .assertionError) ∧
      (func.iscoroutinefunction = true →
        ∀ enable_timer,
          async_timer.wrapper_timer enable_timer func args ≠
            .error .assertionError) := by
  intro α β func args
  constructor
  · intro h
    constructor <;> simp [async_timer.wrapper_timer, async_timer.process, h]
  · intro h enable_timer
    cases enable_timer <;> simp [async_timer.wrapper_timer, async_timer.process, h]

/-- C6 witness: a concrete non-coroutine callable fails the assertion in both
configurations, and a concrete coroutine callable never does. -/
theorem async_timer_assertion_witness :
    (async_timer.wrapper_timer true
        (⟨fun n : Nat => n, false⟩ : AsyncCallable Nat Nat) 0 =
      .error .assertionError) ∧
    (async_timer.wrapper_timer false
        (⟨fun n : Nat => n, false⟩ : AsyncCallable Nat Nat) 0 =
      .error .assertionError) ∧
    (async_timer.wrapper_timer true
        (⟨fun n : Nat => n, true⟩ : AsyncCallable Nat Nat) 0 ≠
      .error .assertionError) :=
  ⟨((async_timer_assertion Nat Nat ⟨fun n => n, false⟩ 0).1 rfl).1,
   ((async_timer_assertion Nat Nat ⟨fun n => n, false⟩ 0).1 rfl).2,
   (async_timer_assertion Nat Nat ⟨fun n => n, true⟩ 0).2 rfl true⟩

/-! ### Claim C2: level-name validation in `setup_custom_logger` -/

/-- C2 counterexample: `"fatal"` is accepted by `setup_custom_logger` (with
numeric level 50) although, case-insensitively, it is not one of the five
names DEBUG, INFO, WARNING, ERROR, CRITICAL that the claim allows. -/
theorem setup_custom_logger_fatal_accepted :
    setup_custom_logger "fatal" = .ok 50 ∧
    pyUpper "fatal" ∉ specFiveLevelNames :=
  ⟨rfl, by decide⟩

/-- C2 (amended): the logger factory succeeds if and only if the upper-cased
level name is one of the eight keys of CPython's level table (DEBUG, INFO,
WARNING, WARN, ERROR, CRITICAL, FATAL, NOTSET); on success the installed
numeric level is the table's value for that key, and otherwise it fails with
a `ValueError` naming the invalid level. -/
theorem setup_custom_logger_level_table :
    ∀ level_str : String,
      ((∃ l, setup_custom_logger level_str = .ok l) ↔
        pyUpper level_str ∈ nameToLevel.map Prod.fst) ∧
      (∀ l, setup_custom_logger level_str = .ok l →
        (pyUpper level_str, l) ∈ nameToLevel) ∧
      (pyUpper level_str ∉ nameToLevel.map Prod.fst →
        setup_custom_logger level_str =
          .error (.valueError ("Invalid logging level: " ++ pyUpper level_str))) := by
  intro level_str
  cases hfind : nameToLevel.find? (fun p => p.1 == pyUpper level_str) with
  | none =>
    have hnomem : pyUpper level_str ∉ nameToLevel.map Prod.fst := by
      intro hmem
      obtain ⟨x, hx, hfst⟩ := List.mem_map.mp hmem
      have := List.find?_eq_none.mp hfind x hx
      simp [hfst] at this
    refine ⟨?_, ?_, ?_⟩
    · constructor
      · rintro ⟨l, hl⟩
        simp [setup_custom_logger, hfind] at hl
      · intro hmem
        exact absurd hmem hnomem
    · intro l hl
      simp [setup_custom_logger, hfind] at hl
    · intro _
      simp [setup_custom_logger, hfind]
  | some p =>
    have hp : p.1 = pyUpper level_str := by
      simpa using List.find?_some hfind
    have hmem : p ∈ nameToLevel := List.mem_of_find?_eq_some hfind
    refine ⟨?_, ?_, ?_⟩
    · constructor
      · intro _
        exact List.mem_map.mpr ⟨p, hmem, hp⟩
      · intro _
        exact ⟨p.2, by simp [setup_custom_logger, hfind]⟩
    · intro l hl
      have : p.2 = l := by
        simpa [setup_custom_logger, hfind] using hl
      rw [← hp, ← this]
      exact hmem
    · intro hnomem
      exact absurd (List.mem_map.mpr ⟨p, hmem, hp⟩) hnomem

/-- C2 witness: the amended theorem applied at `"warning"`, whose accepted
numeric level is the table entry 30. -/
theorem setup_custom_logger_level_table_witness :
    (pyUpper "warning", 30) ∈ nameToLevel :=
  (setup_custom_logger_level_table "warning").2.1 30 rfl

/-! ### Claim C1: which positional argument the request is taken from -/

/-- C1 counterexample: with an argument tuple whose FIRST element exposes
`project_id = "p1"` and whose second element exposes nothing,
`trace_metadata.extract` returns the empty metadata dict, not the dict the
spec's first-positional-argument reading would produce. -/
theorem trace_metadata_extract_not_first_arg :
    trace_metadata.extract
        [⟨some (some "p1"), Option.none, Option.none, Option.none⟩,
         ⟨Option.none, Option.none, Option.none, Option.none⟩] ≠
      trace_metadata.specExtractFromFirst
        [⟨some (some "p1"), Option.none, Option.none, Option.none⟩,
         ⟨Option.none, Option.none, Option.none, Option.none⟩] := by
  intro h
  have h2 := congrArg Except.toOption h
  exact absurd h2 (by decide)

/-- C1 (amended): the four optional identifying attributes are extracted from
the SECOND positional argument of the wrapped callable (`args[1]`, the
request slot after the bound instance argument): whenever the argument tuple
has an element at index 1, `extract` succeeds with exactly that element's
four optional attributes. -/
theorem trace_metadata_extract_from_second_arg :
    ∀ (args : List Request) (req : Request), args[1]? = some req →
      trace_metadata.extract args = .ok (trace_metadata.extractFrom req) ∧
      dictGet (trace_metadata.extractFrom req) "project_id" = req.project_id ∧
      dictGet (trace_metadata.extractFrom req) "thread_id" = req.thread_id ∧
      dictGet (trace_metadata.extractFrom req) "mdl_hash" = req.mdl_hash ∧
      dictGet (trace_metadata.extractFrom req) "user_id" = req.user_id := by
  intro args req h
  exact ⟨by simp [trace_metadata.extract, h],
         dictGet_extractFrom_project_id req,
         dictGet_extractFrom_thread_id req,
         dictGet_extractFrom_mdl_hash req,
         dictGet_extractFrom_user_id req⟩

/-- C1 witness: the amended theorem applied to a concrete two-element
argument tuple whose second element carries all four attributes. -/
theorem trace_metadata_extract_from_second_arg_witness :
    trace_metadata.extract
        [⟨Option.none, Option.none, Option.none, Option.none⟩,
         ⟨some (some "p"), some (some "t"), some (some "h"), some (some "u")⟩] =
      .ok (trace_metadata.extractFrom
        ⟨some (some "p"), some (some "t"), some (some "h"), some (some "u")⟩) :=
  (trace_metadata_extract_from_second_arg
    [⟨Option.none, Option.none, Option.none, Option.none⟩,
     ⟨some (some "p"), some (some "t"), some (some "h"), some (some "u")⟩]
    ⟨some (some "p"), some (some "t"), some (some "h"), some (some "u")⟩ rfl).1

/-! ### The normal-path behaviour of `trace_metadata.wrapper` -/

theorem pyGet_extractFrom_mdl_hash (req : Request) :
    pyGet (trace_metadata.extractFrom req) "mdl_hash" =
      req.mdl_hash.getD Option.none := by
  simp [pyGet, dictGet_extractFrom_mdl_hash]

theorem pyGet_extractFrom_project_id (req : Request) :
    pyGet (trace_metadata.extractFrom req) "project_id" =
      req.project_id.getD Option.none := by
  simp [pyGet, dictGet_extractFrom_project_id]

theorem wrapper_ok (args : List Request) (sm? : Option ServiceMeta)
    (results : Results) (req : Request) (h : args[1]? = some req) :
    trace_metadata.wrapper args sm? results =
      .ok ({ user_id := pyGet (trace_metadata.extractFrom req) "user_id",
             session_id := pyGet (trace_metadata.extractFrom req) "thread_id",
             release := (sm?.getD defaultServiceMeta).service_version,
             metadata :=
               dictSet (dictSet
                   (dictUpdate (trace_metadata.pipesOf sm?)
                     (trace_metadata.additionOf results))
                   "mdl_hash" (pyGet (trace_metadata.extractFrom req) "mdl_hash"))
                 "project_id"
                 (pyGet (trace_metadata.extractFrom req) "project_id") },
           results) := by
  have hextract : trace_metadata.extract args =
      .ok (trace_metadata.extractFrom req) := by
    simp [trace_metadata.extract, h]
  cases results <;>
    simp [trace_metadata.wrapper, hextract, trace_metadata.pipesOf,
      trace_metadata.additionOf]

/-! ### Claim C9: `mdl_hash` / `project_id` keys are always pushed -/

/-- C9: the merged metadata pushed to the tracing context always contains the
keys `mdl_hash` and `project_id`; their values are exactly the request's
attribute values, so when the request lacks the attribute the key is set to
Python `None`, overriding any value contributed by `pipes_metadata` or by the
result's `metadata` sub-mapping (the equalities hold for every
`service_metadata` and every result). -/
theorem trace_metadata_keys_always_present :
    ∀ (args : List Request) (sm? : Option ServiceMeta) (results : Results)
      (req : Request), args[1]? = some req →
      ∃ upd : TraceUpdate,
        trace_metadata.wrapper args sm? results = .ok (upd, results) ∧
        dictGet upd.metadata "mdl_hash" = some (req.mdl_hash.getD Option.none) ∧
        dictGet upd.metadata "project_id" =
          some (req.project_id.getD Option.none) ∧
        (req.mdl_hash = Option.none →
          dictGet upd.metadata "mdl_hash" = some Option.none) ∧
        (req.project_id = Option.none →
          dictGet upd.metadata "project_id" = some Option.none) := by
  intro args sm? results req h
  refine ⟨_, wrapper_ok args sm? results req h, ?_, ?_, ?_, ?_⟩
  · rw [dictGet_dictSet_ne _ _ _ _ (by decide), dictGet_dictSet_self,
      pyGet_extractFrom_mdl_hash]
  · rw [dictGet_dictSet_self, pyGet_extractFrom_project_id]
  · intro hm
    rw [dictGet_dictSet_ne _ _ _ _ (by decide), dictGet_dictSet_self,
      pyGet_extractFrom_mdl_hash, hm]
    rfl
  · intro hp
    rw [dictGet_dictSet_self, pyGet_extractFrom_project_id, hp]
    rfl

/-- C9 witness: concrete traced call whose request lacks both attributes;
both keys are pushed with value `None` although `pipes_metadata` and the
result's sub-mapping supply values for them. -/
theorem trace_metadata_keys_always_present_witness :
    ∃ upd : TraceUpdate,
      trace_metadata.wrapper
          [⟨Option.none, Option.none, Option.none, Option.none⟩,
           ⟨Option.none, Option.none, Option.none, Option.none⟩]
          (some ⟨[("mdl_hash", some "pipes")], some "v1"⟩)
          (.isDict (some [("project_id", some "res")])) =
        .ok (upd, .isDict (some [("project_id", some "res")])) ∧
      dictGet upd.metadata "mdl_hash" = some Option.none ∧
      dictGet upd.metadata "project_id" = some Option.none :=
  (trace_metadata_keys_always_present
    [⟨Option.none, Option.none, Option.none, Option.none⟩,
     ⟨Option.none, Option.none, Option.none, Option.none⟩]
    (some ⟨[("mdl_hash", some "pipes")], some "v1"⟩)
    (.isDict (some [("project_id", some "res")]))
    ⟨Option.none, Option.none, Option.none, Option.none⟩ rfl).elim
    (fun upd hupd => ⟨upd, hupd.1, hupd.2.1, hupd.2.2.1⟩)

/-! ### Claim C3: merge precedence and unchanged result -/

/-- C3: on every traced call the metadata pushed to the tracing context is
the precedence merge of (a) the `pipes_metadata` of the `service_metadata`
keyword argument (empty when the keyword is absent), overridden by (b) the
result's `metadata` sub-mapping when the result is a dict, overridden by
(c) the `mdl_hash` and `project_id` values extracted from the request; and
the wrapped callable's result is returned unchanged. Lookup form: for every
key, the pushed value is the request extraction at the two identifier keys
and otherwise the result-metadata value falling back to the
`pipes_metadata` value. -/
theorem trace_metadata_merge_precedence :
    ∀ (args : List Request) (sm? : Option ServiceMeta) (results : Results)
      (req : Request), args[1]? = some req →
      ((trace_metadata.additionOf results).map Prod.fst).Nodup →
      ∃ upd : TraceUpdate,
        trace_metadata.wrapper args sm? results = .ok (upd, results) ∧
        ∀ k : String,
          dictGet upd.metadata k =
            if k = "project_id" then some (req.project_id.getD Option.none)
            else if k = "mdl_hash" then some (req.mdl_hash.getD Option.none)
            else
              match dictGet (trace_metadata.additionOf results) k with
              | some v => some v
              | Option.none => dictGet (trace_metadata.pipesOf sm?) k := by
  intro args sm? results req h hnodup
  refine ⟨_, wrapper_ok args sm? results req h, ?_⟩
  intro k
  by_cases hk1 : k = "project_id"
  · subst hk1
    rw [if_pos rfl, dictGet_dictSet_self, pyGet_extractFrom_project_id]
  · rw [if_neg hk1, dictGet_dictSet_ne _ _ _ _ hk1]
    by_cases hk2 : k = "mdl_hash"
    · subst hk2
      rw [if_pos rfl, dictGet_dictSet_self, pyGet_extractFrom_mdl_hash]
    · rw [if_neg hk2, dictGet_dictSet_ne _ _ _ _ hk2,
        dictGet_dictUpdate _ _ _ hnodup]

/-- C3 witness: concrete traced call exercising all three merge layers — the
result's sub-mapping overrides `pipes_metadata` at `"k"`, `pipes_metadata`
survives at `"only"`, and the request's identifiers take the two reserved
keys — while the result comes back unchanged. -/
theorem trace_metadata_merge_precedence_witness :
    ∃ upd : TraceUpdate,
      trace_metadata.wrapper
          [⟨Option.none, Option.none, Option.none, Option.none⟩,
           ⟨some (some "p1"), Option.none, some (some "h1"), Option.none⟩]
          (some ⟨[("k", some "pipes"), ("only", some "base")], some "v1"⟩)
          (.isDict (some [("k", some "res")])) =
        .ok (upd, .isDict (some [("k", some "res")])) ∧
      ∀ k : String,
        dictGet upd.metadata k =
          if k = "project_id" then some (some "p1")
          else if k = "mdl_hash" then some (some "h1")
          else
            match dictGet [("k", some "res")] k with
            | some v => some v
            | Option.none => dictGet [("k", some "pipes"), ("only", some "base")] k :=
  (trace_metadata_merge_precedence
    [⟨Option.none, Option.none, Option.none, Option.none⟩,
     ⟨some (some "p1"), Option.none, some (some "h1"), Option.none⟩]
    (some ⟨[("k", some "pipes"), ("only", some "base")], some "v1"⟩)
    (.isDict (some [("k", some "res")]))
    ⟨some (some "p1"), Option.none, some (some "h1"), Option.none⟩
    rfl (by decide)).elim
    (fun upd hupd => ⟨upd, hupd.1, hupd.2⟩)

/-! ### Claim C10: `remove_trailing_slash` strips all trailing slashes -/

theorem dropWhile_head_false {α : Type} (p : α → Bool) (l : List α) (c : α)
    (t : List α) (h : l.dropWhile p = c :: t) : p c = false := by
  induction l with
  | nil => simp [List.dropWhile] at h
  | cons a l ih =>
    by_cases ha : p a = true
    · rw [List.dropWhile_cons_of_pos ha] at h
      exact ih h
    · rw [List.dropWhile_cons_of_neg ha] at h
      cases h
      simpa using ha

theorem dropWhile_rstripSlashList (cs : List Char) :
    (rstripSlashList cs).reverse.dropWhile (fun c => c == '/') =
      (rstripSlashList cs).reverse := by
  unfold rstripSlashList
  rw [List.reverse_reverse]
  cases hu : cs.reverse.dropWhile (fun c => c == '/') with
  | nil => rfl
  | cons c t =>
    have hc : (c == '/') = false :=
      dropWhile_head_false (fun c => c == '/') cs.reverse c t hu
    exact List.dropWhile_cons_of_neg (by simp [hc])

theorem rstripSlashList_idem (cs : List Char) :
    rstripSlashList (rstripSlashList cs) = rstripSlashList cs := by
  show ((rstripSlashList cs).reverse.dropWhile (fun c => c == '/')).reverse = _
  rw [dropWhile_rstripSlashList, List.reverse_reverse]

theorem endswithSlash_rstripSlashList (cs : List Char) :
    endswithSlash ⟨rstripSlashList cs⟩ = false := by
  unfold endswithSlash
  show (match (rstripSlashList cs).reverse with
        | [] => false
        | c :: _ => c == '/') = false
  rw [show (rstripSlashList cs).reverse = cs.reverse.dropWhile (fun c => c == '/')
    from by unfold rstripSlashList; rw [List.reverse_reverse]]
  cases hu : cs.reverse.dropWhile (fun c => c == '/') with
  | nil => rfl
  | cons c t => exact dropWhile_head_false (fun c => c == '/') cs.reverse c t hu

theorem remove_trailing_slash_eq_rstrip (s : String) :
    remove_trailing_slash s = ⟨rstripSlashList s.data⟩ := by
  by_cases h : endswithSlash s = true
  · simp [remove_trailing_slash, h]
  · have hfalse : endswithSlash s = false := by simpa using h
    have hdata : rstripSlashList s.data = s.data := by
      unfold rstripSlashList
      cases hrev : s.data.reverse with
      | nil =>
        have : s.data = [] := List.reverse_eq_nil_iff.mp hrev
        simp [this]
      | cons c t =>
        have hc : (c == '/') = false := by
          have := hfalse
          unfold endswithSlash at this
          rw [hrev] at this
          exact this
        rw [List.dropWhile_cons_of_neg (by simp [hc]), ← hrev,
          List.reverse_reverse]
    simp [remove_trailing_slash, hfalse, hdata]

/-- C10: `remove_trailing_slash s` equals `s` with ALL trailing `'/'`
characters removed: `s` is the result followed by some run of slashes, the
result never ends in a slash, the operation is idempotent, and a string not
ending in `'/'` comes back unchanged. -/
theorem remove_trailing_slash_spec :
    ∀ s : String,
      (∃ n : Nat,
        s.data = (remove_trailing_slash s).data ++ List.replicate n '/') ∧
      endswithSlash (remove_trailing_slash s) = false ∧
      remove_trailing_slash (remove_trailing_slash s) = remove_trailing_slash s ∧
      (endswithSlash s = false → remove_trailing_slash s = s) := by
  intro s
  refine ⟨?_, ?_, ?_, ?_⟩
  · refine ⟨(s.data.reverse.takeWhile (fun c => c == '/')).length, ?_⟩
    have hsplit :
        s.data.reverse.takeWhile (fun c => c == '/') ++
          s.data.reverse.dropWhile (fun c => c == '/') = s.data.reverse :=
      List.takeWhile_append_dropWhile _ _
    have hrepl :
        (s.data.reverse.takeWhile (fun c => c == '/')).reverse =
          List.replicate
            (s.data.reverse.takeWhile (fun c => c == '/')).length '/' := by
      rw [List.eq_replicate_iff]
      refine ⟨by simp, ?_⟩
      intro b hb
      have hball := List.all_takeWhile (p := fun c => c == '/')
        (l := s.data.reverse)
      have := List.all_eq_true.mp hball b (List.mem_reverse.mp hb)
      simpa using this
    calc s.data = (s.data.reverse).reverse := (List.reverse_reverse _).symm
      _ = (s.data.reverse.takeWhile (fun c => c == '/') ++
            s.data.reverse.dropWhile (fun c => c == '/')).reverse := by
          rw [hsplit]
      _ = (s.data.reverse.dropWhile (fun c => c == '/')).reverse ++
            (s.data.reverse.takeWhile (fun c => c == '/')).reverse := by
          rw [List.reverse_append]
      _ = (remove_trailing_slash s).data ++
            List.replicate
              (s.data.reverse.takeWhile (fun c => c == '/')).length '/' := by
          rw [hrepl, remove_trailing_slash_eq_rstrip]
          rfl
  · rw [remove_trailing_slash_eq_rstrip]
    exact endswithSlash_rstripSlashList s.data
  · rw [remove_trailing_slash_eq_rstrip s,
      remove_trailing_slash_eq_rstrip ⟨rstripSlashList s.data⟩]
    show (⟨rstripSlashList (rstripSlashList s.data)⟩ : String) = _
    rw [rstripSlashList_idem]
  · intro h
    simp [remove_trailing_slash, h]

/-- C10 witness: a string with two trailing slashes loses both, and a string
without a trailing slash is returned unchanged. -/
theorem remove_trailing_slash_spec_witness :
    (∃ n : Nat,
      "a//".data = (remove_trailing_slash "a//").data ++ List.replicate n '/') ∧
    remove_trailing_slash "abc" = "abc" ∧
    remove_trailing_slash "a//" = "a" :=
  ⟨(remove_trailing_slash_spec "a//").1,
   (remove_trailing_slash_spec "abc").2.2.2 (by decide),
   by decide⟩

/-! ### The dedup loop vs the first-occurrence specification -/

theorem firstOcc_nil : firstOcc [] = [] := by
  rw [firstOcc]

theorem firstOcc_cons (d : SqlRecord) (l : List SqlRecord) :
    firstOcc (d :: l) = d :: firstOcc (l.filter (fun e => ¬(keyD e = keyD d))) := by
  rw [firstOcc]

theorem dedupFrom_ok :
    ∀ (l : List SqlRecord) (seen : List (Value × Value)),
      (∀ d ∈ l, d.sql?.isSome ∧ d.summary?.isSome) →
      dedupFrom seen l = .ok (firstOccSeen seen l) := by
  intro l
  induction l with
  | nil => intro seen _; rfl
  | cons d rest ih =>
    intro seen h
    obtain ⟨hs, hm⟩ := h d (List.mem_cons_self d rest)
    obtain ⟨s, hs'⟩ := Option.isSome_iff_exists.mp hs
    obtain ⟨m, hm'⟩ := Option.isSome_iff_exists.mp hm
    have hk : keyD d = (s, m) := by simp [keyD, hs', hm']
    have hrest : ∀ e ∈ rest, e.sql?.isSome ∧ e.summary?.isSome :=
      fun e he => h e (List.mem_cons_of_mem d he)
    by_cases hmem : (s, m) ∈ seen
    · rw [show dedupFrom seen (d :: rest) = dedupFrom seen rest from by
        simp [dedupFrom, hs', hm', hmem]]
      rw [show firstOccSeen seen (d :: rest) = firstOccSeen seen rest from by
        simp [firstOccSeen, hk, hmem]]
      exact ih seen hrest
    · rw [show dedupFrom seen (d :: rest) =
          (dedupFrom ((s, m) :: seen) rest).map (fun l => d :: l) from by
        simp [dedupFrom, hs', hm', hmem]]
      rw [show firstOccSeen seen (d :: rest) =
          d :: firstOccSeen ((s, m) :: seen) rest from by
        simp [firstOccSeen, hk, hmem]]
      rw [ih ((s, m) :: seen) hrest]
      rfl

theorem firstOccSeen_eq_firstOcc_filter :
    ∀ (l : List SqlRecord) (seen : List (Value × Value)),
      firstOccSeen seen l =
        firstOcc (l.filter (fun e => !(decide (keyD e ∈ seen)))) := by
  intro l
  induction l with
  | nil => intro seen; rw [List.filter_nil, firstOcc_nil]; rfl
  | cons d rest ih =>
    intro seen
    by_cases hmem : keyD d ∈ seen
    · rw [show firstOccSeen seen (d :: rest) = firstOccSeen seen rest from by
        simp [firstOccSeen, hmem]]
      rw [List.filter_cons, if_neg (by simp [hmem])]
      exact ih seen
    · rw [show firstOccSeen seen (d :: rest) =
          d :: firstOccSeen (keyD d :: seen) rest from by
        simp [firstOccSeen, hmem]]
      rw [List.filter_cons, if_pos (by simp [hmem]), firstOcc_cons,
        List.filter_filter, ih (keyD d :: seen)]
      congr 1
      congr 1
      apply List.filter_congr
      intro e _
      by_cases h1 : keyD e = keyD d <;> by_cases h2 : keyD e ∈ seen <;>
        simp [h1, h2, List.mem_cons]

theorem firstOcc_eq_firstOccSeen_nil (l : List SqlRecord) :
    firstOcc l = firstOccSeen [] l := by
  rw [firstOccSeen_eq_firstOcc_filter]
  congr 1
  exact (List.filter_eq_self.mpr (fun a _ => by simp)).symm

theorem mem_of_mem_firstOccSeen :
    ∀ (l : List SqlRecord) (seen : List (Value × Value)) (d : SqlRecord),
      d ∈ firstOccSeen seen l → d ∈ l := by
  intro l
  induction l with
  | nil => intro seen d h; simp [firstOccSeen] at h
  | cons e rest ih =>
    intro seen d h
    by_cases hmem : keyD e ∈ seen
    · rw [show firstOccSeen seen (e :: rest) = firstOccSeen seen rest from by
        simp [firstOccSeen, hmem]] at h
      exact List.mem_cons_of_mem e (ih seen d h)
    · rw [show firstOccSeen seen (e :: rest) =
          e :: firstOccSeen (keyD e :: seen) rest from by
        simp [firstOccSeen, hmem]] at h
      rcases List.mem_cons.mp h with h | h
      · exact h ▸ List.mem_cons_self e rest
      · exact List.mem_cons_of_mem e (ih (keyD e :: seen) d h)

theorem firstOccSeen_pairwise_avoid :
    ∀ (l : List SqlRecord) (seen : List (Value × Value)),
      (firstOccSeen seen l).Pairwise (fun a b => keyD a ≠ keyD b) ∧
      (∀ d ∈ firstOccSeen seen l, keyD d ∉ seen) := by
  intro l
  induction l with
  | nil => intro seen; exact ⟨List.Pairwise.nil, by simp [firstOccSeen]⟩
  | cons d rest ih =>
    intro seen
    by_cases hmem : keyD d ∈ seen
    · rw [show firstOccSeen seen (d :: rest) = firstOccSeen seen rest from by
        simp [firstOccSeen, hmem]]
      exact ih seen
    · rw [show firstOccSeen seen (d :: rest) =
          d :: firstOccSeen (keyD d :: seen) rest from by
        simp [firstOccSeen, hmem]]
      obtain ⟨hpair, havoid⟩ := ih (keyD d :: seen)
      constructor
      · refine List.pairwise_cons.mpr ⟨?_, hpair⟩
        intro b hb
        have hb' := havoid b hb
        rw [List.mem_cons] at hb'
        push_neg at hb'
        exact fun hEq => hb'.1 hEq.symm
      · intro e he
        rcases List.mem_cons.mp he with h | h
        · exact h ▸ hmem
        · have he' := havoid e h
          rw [List.mem_cons] at he'
          push_neg at he'
          exact he'.2

theorem firstOccSeen_eq_self :
    ∀ (l : List SqlRecord) (seen : List (Value × Value)),
      l.Pairwise (fun a b => keyD a ≠ keyD b) →
      (∀ d ∈ l, keyD d ∉ seen) →
      firstOccSeen seen l = l := by
  intro l
  induction l with
  | nil => intro seen _ _; rfl
  | cons d rest ih =>
    intro seen hp ha
    have hmem : keyD d ∉ seen := ha d (List.mem_cons_self d rest)
    rw [show firstOccSeen seen (d :: rest) =
        d :: firstOccSeen (keyD d :: seen) rest from by
      simp [firstOccSeen, hmem]]
    congr 1
    refine ih (keyD d :: seen) hp.of_cons ?_
    intro e he
    rw [List.mem_cons]
    push_neg
    exact ⟨fun hEq => (List.pairwise_cons.mp hp).1 e he hEq.symm,
           ha e (List.mem_cons_of_mem d he)⟩

theorem dedupFrom_error :
    ∀ (l : List SqlRecord) (seen : List (Value × Value)),
      (∃ d ∈ l, d.sql? = Option.none ∨ d.summary? = Option.none) →
      dedupFrom seen l = .error .keyError := by
  intro l
  induction l with
  | nil => intro seen h; simp at h
  | cons d rest ih =>
    intro seen h
    rcases h with ⟨e, he, hbad⟩
    rcases List.mem_cons.mp he with rfl | he'
    · rcases hbad with h1 | h1
      · cases hm : e.summary? <;> simp [dedupFrom, h1, hm]
      · cases hs : e.sql? <;> simp [dedupFrom, h1, hs]
    · cases hs : d.sql? with
      | none => simp [dedupFrom, hs]
      | some s =>
        cases hm : d.summary? with
        | none => simp [dedupFrom, hs, hm]
        | some m =>
          have hrest := ih ((s, m) :: seen) ⟨e, he', hbad⟩
          have hrest' := ih seen ⟨e, he', hbad⟩
          by_cases hmem : (s, m) ∈ seen <;>
            simp [dedupFrom, hs, hm, hmem, hrest, hrest', Except.map]

/-! ### Claim C4: dedup keeps first occurrences in order -/

/-- C4: for every record sequence in which each record carries both fields,
`remove_sql_summary_duplicates` returns exactly the subsequence retaining the
first record for each distinct `(sql, summary)` pair, in original order
(`firstOcc` is that specification written out). -/
theorem remove_sql_summary_duplicates_spec :
    ∀ dicts : List SqlRecord,
      (∀ d ∈ dicts, d.sql?.isSome ∧ d.summary?.isSome) →
      remove_sql_summary_duplicates dicts = .ok (firstOcc dicts) := by
  intro dicts h
  rw [remove_sql_summary_duplicates, dedupFrom_ok dicts [] h,
    firstOcc_eq_firstOccSeen_nil]

/-- C4 witness: the spec's three-record example — two exact duplicates, the
first occurrence kept, order preserved. -/
theorem remove_sql_summary_duplicates_spec_witness :
    remove_sql_summary_duplicates
        [⟨some (some "A"), some (some "x"), []⟩,
         ⟨some (some "A"), some (some "x"), []⟩,
         ⟨some (some "B"), some (some "x"), []⟩] =
      .ok (firstOcc
        [⟨some (some "A"), some (some "x"), []⟩,
         ⟨some (some "A"), some (some "x"), []⟩,
         ⟨some (some "B"), some (some "x"), []⟩]) ∧
    firstOcc
        [⟨some (some "A"), some (some "x"), []⟩,
         ⟨some (some "A"), some (some "x"), []⟩,
         ⟨some (some "B"), some (some "x"), []⟩] =
      [⟨some (some "A"), some (some "x"), []⟩,
       ⟨some (some "B"), some (some "x"), []⟩] :=
  ⟨remove_sql_summary_duplicates_spec
     [⟨some (some "A"), some (some "x"), []⟩,
      ⟨some (some "A"), some (some "x"), []⟩,
      ⟨some (some "B"), some (some "x"), []⟩] (by decide),
   by rw [firstOcc_eq_firstOccSeen_nil]; decide⟩

/-! ### Claim C7: dedup is idempotent -/

/-- C7: for every record sequence in which each record carries both fields,
applying `remove_sql_summary_duplicates` twice yields the same result as
applying it once. -/
theorem remove_sql_summary_duplicates_idem :
    ∀ dicts : List SqlRecord,
      (∀ d ∈ dicts, d.sql?.isSome ∧ d.summary?.isSome) →
      (remove_sql_summary_duplicates dicts).bind remove_sql_summary_duplicates =
        remove_sql_summary_duplicates dicts := by
  intro dicts h
  rw [remove_sql_summary_duplicates, dedupFrom_ok dicts [] h]
  show dedupFrom [] (firstOccSeen [] dicts) = _
  rw [dedupFrom_ok _ []
    (fun d hd => h d (mem_of_mem_firstOccSeen dicts [] d hd))]
  congr 1
  exact firstOccSeen_eq_self _ [] (firstOccSeen_pairwise_avoid dicts []).1
    (by simp)

/-- C7 witness: the dedup helper applied twice to a concrete list with a
duplicate equals the single application. -/
theorem remove_sql_summary_duplicates_idem_witness :
    (remove_sql_summary_duplicates
        [⟨some (some "A"), some (some "x"), []⟩,
         ⟨some (some "A"), some (some "x"), []⟩,
         ⟨some (some "B"), some (some "y"), []⟩]).bind
        remove_sql_summary_duplicates =
      remove_sql_summary_duplicates
        [⟨some (some "A"), some (some "x"), []⟩,
         ⟨some (some "A"), some (some "x"), []⟩,
         ⟨some (some "B"), some (some "y"), []⟩] :=
  remove_sql_summary_duplicates_idem
    [⟨some (some "A"), some (some "x"), []⟩,
     ⟨some (some "A"), some (some "x"), []⟩,
     ⟨some (some "B"), some (some "y"), []⟩] (by decide)

/-! ### Claim C8: missing field raises a key error -/

/-- C8: whenever some record of the input lacks the `sql` field or the
`summary` field, `remove_sql_summary_duplicates` fails with a `KeyError`
instead of returning a result — no validation or recovery happens. -/
theorem remove_sql_summary_duplicates_missing_field :
    ∀ dicts : List SqlRecord,
      (∃ d ∈ dicts, d.sql? = Option.none ∨ d.summary? = Option.none) →
      remove_sql_summary_duplicates dicts = .error .keyError := by
  intro dicts h
  exact dedupFrom_error dicts [] h

/-- C8 witness: a well-formed record followed by a record without the `sql`
field makes the helper raise `KeyError`. -/
theorem remove_sql_summary_duplicates_missing_field_witness :
    remove_sql_summary_duplicates
        [⟨some (some "A"), some (some "x"), []⟩,
         ⟨Option.none, some (some "y"), []⟩] =
      .error .keyError :=
  remove_sql_summary_duplicates_missing_field
    [⟨some (some "A"), some (some "x"), []⟩,
     ⟨Option.none, some (some "y"), []⟩]
    ⟨⟨Option.none, some (some "y"), []⟩, by decide, by decide⟩

end WrenAI
